import Mathlib

/-!
Shallow embedding of the `plumbum` streaming-pipeline core (`src/lib.rs`).

The Rust crate defines `ConduitM<'a, I, O, A>`, a free-monad-style pipeline
value with three variants (`Pure`, `Await`, `Yield`), together with the
operations `and_then`, `map`, `fuse`, `connect`, `to_producer`, `to_consumer`,
the constructors `consume` / `produce` / `From::from`, and a `PartialEq`
instance.  The continuation type `Kleisli` lives in the crate's `kleisli`
module, which is not part of the sources here; per its spec its observable
behaviour is exactly that of a function `A → ConduitM I O B` (an empty queue
runs to `Pure`, `append` post-composes with `and_then`), so continuations are
embedded as plain functions, and the queue's cost discipline is modelled
separately below (`CQueue`).

Rust's uninhabited `enum Void` is embedded as Lean's `Empty`.
-/

/-- Rust's `enum Void {}`: an uninhabited type. -/
abbrev Void : Type := Empty

/-- The pipeline value `ConduitM<'a, I, O, A>`: `Pure` holds the final result,
`Await` holds the continuation expecting an optional input, `Yield` holds one
output value and the continuation expecting unit. -/
inductive ConduitM (I O A : Type) : Type where
  | Pure : A → ConduitM I O A
  | Await : (Option I → ConduitM I O A) → ConduitM I O A
  | Yield : O → (Unit → ConduitM I O A) → ConduitM I O A

/-- `Source<'a, O> = ConduitM<'a, (), O, ()>`. -/
abbrev Source (O : Type) := ConduitM Unit O Unit

/-- `Sink<'a, I, A> = ConduitM<'a, I, Void, A>`. -/
abbrev Sink (I A : Type) := ConduitM I Void A

/-- `Conduit<'a, I, O> = ConduitM<'a, I, O, ()>`. -/
abbrev Conduit (I O : Type) := ConduitM I O Unit

namespace ConduitM

variable {I O A B C R : Type}

/-- `impl From<A> for ConduitM`: `ConduitM::Pure(Box::new(a))`.  This is the
spec's `finished(a)` constructor. -/
def finished (a : A) : ConduitM I O A := .Pure a

/-- `ConduitM::and_then`: `Pure(a)` applies the continuation immediately;
`Await`/`Yield` append it to the stored continuation (`Kleisli::append`
post-composes, so the stored function becomes `fun x => (k x).and_then js`). -/
def and_then : ConduitM I O A → (A → ConduitM I O B) → ConduitM I O B
  | .Pure a, js => js a
  | .Await is, js => .Await fun x => (is x).and_then js
  | .Yield o is, js => .Yield o fun u => (is u).and_then js

/-- `ConduitM::map`: `self.and_then(move |a| f(a).into())`. -/
def map (p : ConduitM I O A) (f : A → B) : ConduitM I O B :=
  p.and_then fun a => finished (f a)

end ConduitM

/-- `consume()`: `ConduitM::Await(Kleisli::new())` — the empty continuation
queue run on `x` produces `Pure(x)`. -/
def consume {I O : Type} : ConduitM I O (Option I) :=
  .Await fun x => .Pure x

/-- `produce(o)`: `ConduitM::Yield(Box::new(o), Kleisli::new())`. -/
def produce {I O : Type} (o : O) : ConduitM I O Unit :=
  .Yield o fun u => .Pure u

namespace ConduitM

variable {I O A B C R J : Type}

/-- Helper for `fuse`, handling the `Await(k_right)` downstream case by
recursion on the upstream (`ih x up` stands for `fuse up (k_right x)`):
upstream `Pure` feeds `None` with upstream reset to `Pure(())`; upstream
`Yield(b, k_left)` hands `b` over synchronously; upstream `Await(k_left)`
suspends, re-fusing with the still-awaiting downstream on resumption. -/
def fuseAwait (ih : Option O → ConduitM I O Unit → ConduitM I C R) :
    ConduitM I O Unit → ConduitM I C R
  | .Pure _ => ih none (.Pure ())
  | .Yield b kl => ih (some b) (kl ())
  | .Await kl => .Await fun a => fuseAwait ih (kl a)

/-- Recursion core of `ConduitM::fuse`, with the downstream pipeline first
(the Rust code matches on `other` first): downstream `Pure(r)` ends the
fusion; downstream `Yield(c, k)` passes the output straight through;
downstream `Await(k_right)` defers to `fuseAwait`. -/
def fuseGo : ConduitM O C R → ConduitM I O Unit → ConduitM I C R
  | .Pure r, _ => .Pure r
  | .Yield c k, up => .Yield c fun u => fuseGo (k u) up
  | .Await kr, up => fuseAwait (fun x up' => fuseGo (kr x) up') up

/-- `ConduitM::fuse(self, other)`: pipe `self`'s outputs into `other`. -/
def fuse (up : ConduitM I O Unit) (down : ConduitM O C R) : ConduitM I C R :=
  fuseGo down up

/-- Helper for `connect`, handling the `Await(k_sink)` sink case by recursion
on the source (`ih x` stands for continuing the drive loop with the sink
resumed on `x`): source `Pure` feeds `None`; source `Await(k_src)` resumes the
source with `Some(())`; source `Yield(o, k_src)` resumes the source past its
yield and feeds `Some(o)` to the sink. -/
def connectAwaitSrc (ih : Option O → ConduitM Unit O Unit → B) :
    ConduitM Unit O Unit → B
  | .Pure x => ih none (.Pure x)
  | .Await kr => connectAwaitSrc ih (kr (some ()))
  | .Yield o kr => ih (some o) (kr ())

/-- Recursion core of `ConduitM::connect`, with the sink first (the Rust loop
matches on `sink` first): sink `Pure(b)` returns `b`; a sink `Yield` carries a
`Void` output, so that branch (Rust's `unreachable!()`) is discharged by
`Empty.elim`; sink `Await(k_sink)` defers to `connectAwaitSrc`. -/
def connectGo : ConduitM O Void B → ConduitM Unit O Unit → B
  | .Pure b, _ => b
  | .Yield o _, _ => o.elim
  | .Await ks, src => connectAwaitSrc (fun x src' => connectGo (ks x) src') src

/-- `ConduitM::connect(self, sink)`: drive the source/sink pair to the sink's
final result. -/
def connect (src : ConduitM Unit O Unit) (sink : ConduitM O Void B) : B :=
  connectGo sink src

/-- `ConduitM::to_producer`: generalize a `Source` over an arbitrary input
type by resolving every `Await` with `Some(())` on the spot. -/
def to_producer : ConduitM Unit O Unit → ConduitM I O Unit
  | .Pure x => .Pure x
  | .Await k => to_producer (k (some ()))
  | .Yield o k => .Yield o fun _ => to_producer (k ())

/-- `ConduitM::to_consumer`: generalize a `Sink` over an arbitrary output
type.  The Rust code is a `transmute`, justified by `Void` being uninhabited;
the embedding rebuilds the value variant by variant, with the impossible
`Yield` case closed by `Empty.elim`. -/
def to_consumer : ConduitM I Void A → ConduitM I O A
  | .Pure a => .Pure a
  | .Await k => .Await fun x => to_consumer (k x)
  | .Yield o _ => o.elim

/-- `impl PartialEq for ConduitM`: two values are equal exactly when both are
`Pure` with equal payloads; any other pair compares `false`. -/
def beq [BEq A] : ConduitM I O A → ConduitM I O A → Bool
  | .Pure a, .Pure b => a == b
  | _, _ => false

end ConduitM

/-!
Test pipelines used by the claims, built from the crate's primitives.
-/

/-- A finite source yielding the elements of `os` in order: the chain
`produce(o1).and_then(|_| produce(o2)).and_then(...)`. -/
def sourceList {O : Type} (os : List O) : ConduitM Unit O Unit :=
  os.foldr (fun o acc => (produce o).and_then fun _ => acc) (.Pure ())

/-- A sink that awaits and collects up to `n` elements, stopping early when
upstream reports `None`: `consume().and_then(...)` iterated. -/
def collectSink {O : Type} : Nat → ConduitM O Void (List O)
  | 0 => .Pure []
  | n + 1 =>
    consume.and_then fun
      | none => .Pure []
      | some o => (collectSink n).map (o :: ·)

/-- A sink that consumes exactly one element and returns it (`7` only if
upstream were exhausted, which the claims rule out):
`consume().map(|x| x.unwrap_or(7))`. -/
def oneSink : ConduitM Nat Void Nat :=
  consume.map fun x => x.getD 7

/-- The source `0, 1, 2, ...` truncated at depth `d` — the first argument
bounds how far the infinite Rust source is unrolled. -/
def natsTrunc : Nat → Nat → ConduitM Unit Nat Unit
  | 0, _ => .Pure ()
  | d + 1, i => .Yield i fun _ => natsTrunc d (i + 1)

/-- The spec's `identity_conduit` (pass-through stage), unrolled to at most
`n` rounds of "await one input, yield it unchanged"; it finishes when
upstream reports `None`. -/
def idConduit {O : Type} : Nat → ConduitM O O Unit
  | 0 => .Pure ()
  | n + 1 =>
    consume.and_then fun
      | none => .Pure ()
      | some o => (produce o).and_then fun _ => idConduit n

/-!
Modelled from the spec: the continuation queue of the crate's `kleisli`
module (not among the sources here; spec §4.1/§9).  A persistent FIFO of
type-erased step functions with a two-list (banker's queue) discipline:
`push` appends in O(1); draining pops from the front, rotating the back list
once when the front empties.  Each operation is charged explicit primitive
steps: one per push, one per pop, and one per element moved by a rotation.
-/

/-- Modelled from the spec: the continuation queue (`Kleisli`'s backing
store), as a two-list FIFO of queued step functions. -/
structure CQueue (α : Type) where
  front : List α
  back : List α

/-- The empty continuation queue (`Kleisli::new()`). -/
def CQueue.empty {α : Type} : CQueue α := ⟨[], []⟩

/-- O(1) append of one step function (`Kleisli::append`); charged one
primitive step by `pushAllCost`. -/
def CQueue.push {α : Type} (q : CQueue α) (f : α) : CQueue α :=
  ⟨q.front, f :: q.back⟩

/-- Append a whole list of step functions in order. -/
def CQueue.pushAll {α : Type} (q : CQueue α) (fs : List α) : CQueue α :=
  fs.foldl CQueue.push q

/-- The primitive steps charged for appending `fs`: one per push. -/
def CQueue.pushAllCost {α : Type} (fs : List α) : Nat := fs.length

/-- Drain the queue, threading `x` through every queued function in FIFO
order, and count primitive steps: one per pop, plus one per element moved
when the back list is rotated to the front. -/
def CQueue.drainGo {α : Type} : List (α → α) → List (α → α) → α → α × Nat
  | [], [], x => (x, 0)
  | [], b :: bs, x =>
    let r := CQueue.drainGo ((b :: bs).reverse) [] x
    (r.1, r.2 + (b :: bs).length)
  | f :: fs, back, x =>
    let r := CQueue.drainGo fs back (f x)
    (r.1, r.2 + 1)
  termination_by front back _ => (front.length + back.length, back.length)

/-- Run the whole queue on `x` (`Kleisli::run` driven to completion),
returning the final value and the primitive steps performed. -/
def CQueue.drain {α : Type} (q : CQueue (α → α)) (x : α) : α × Nat :=
  CQueue.drainGo q.front q.back x

/-!
Unfolding equations.  Every equation below is definitional (`rfl`); they are
recorded as `simp` lemmas so that proofs can rewrite with the behaviour of
`and_then`, `fuse` and `connect` case by case, exactly mirroring the Rust
match arms.
-/

namespace ConduitM

variable {I O A B C R J : Type}

@[simp] theorem and_then_pure (a : A) (f : A → ConduitM I O B) :
    (ConduitM.Pure a).and_then f = f a := rfl

@[simp] theorem and_then_await (k : Option I → ConduitM I O A)
    (f : A → ConduitM I O B) :
    (ConduitM.Await k).and_then f = .Await fun x => (k x).and_then f := rfl

@[simp] theorem and_then_yield (o : O) (k : Unit → ConduitM I O A)
    (f : A → ConduitM I O B) :
    (ConduitM.Yield o k).and_then f = .Yield o fun u => (k u).and_then f := rfl

@[simp] theorem fuse_pure_down (up : ConduitM I O Unit) (r : R) :
    up.fuse (.Pure r) = (.Pure r : ConduitM I C R) := rfl

@[simp] theorem fuse_yield_down (up : ConduitM I O Unit) (c : C)
    (k : Unit → ConduitM O C R) :
    up.fuse (.Yield c k) = .Yield c fun u => up.fuse (k u) := rfl

@[simp] theorem fuse_pure_await (x : Unit) (kr : Option O → ConduitM O C R) :
    (ConduitM.Pure x : ConduitM I O Unit).fuse (.Await kr) =
      (ConduitM.Pure () : ConduitM I O Unit).fuse (kr none) := rfl

@[simp] theorem fuse_yield_await (b : O) (kl : Unit → ConduitM I O Unit)
    (kr : Option O → ConduitM O C R) :
    (ConduitM.Yield b kl).fuse (.Await kr) = (kl ()).fuse (kr (some b)) := rfl

@[simp] theorem fuse_await_await (kl : Option I → ConduitM I O Unit)
    (kr : Option O → ConduitM O C R) :
    (ConduitM.Await kl).fuse (.Await kr) =
      .Await fun a => (kl a).fuse (.Await kr) := rfl

@[simp] theorem connect_sink_pure (src : ConduitM Unit O Unit) (b : B) :
    src.connect (.Pure b) = b := rfl

@[simp] theorem connect_pure_await (x : Unit) (ks : Option O → ConduitM O Void B) :
    (ConduitM.Pure x : ConduitM Unit O Unit).connect (.Await ks) =
      (ConduitM.Pure x : ConduitM Unit O Unit).connect (ks none) := rfl

@[simp] theorem connect_await_await (kr : Option Unit → ConduitM Unit O Unit)
    (ks : Option O → ConduitM O Void B) :
    (ConduitM.Await kr).connect (.Await ks) =
      (kr (some ())).connect (.Await ks) := rfl

@[simp] theorem connect_yield_await (o : O) (kr : Unit → ConduitM Unit O Unit)
    (ks : Option O → ConduitM O Void B) :
    (ConduitM.Yield o kr).connect (.Await ks) = (kr ()).connect (ks (some o)) := rfl

@[simp] theorem to_producer_pure (x : Unit) :
    (ConduitM.Pure x : ConduitM Unit O Unit).to_producer =
      (ConduitM.Pure x : ConduitM I O Unit) := rfl

@[simp] theorem to_producer_await (k : Option Unit → ConduitM Unit O Unit) :
    (ConduitM.Await k).to_producer = (k (some ())).to_producer (I := I) := rfl

@[simp] theorem to_producer_yield (o : O) (k : Unit → ConduitM Unit O Unit) :
    (ConduitM.Yield o k).to_producer =
      (ConduitM.Yield o fun _ => (k ()).to_producer : ConduitM I O Unit) := rfl

@[simp] theorem to_consumer_pure (a : A) :
    (ConduitM.Pure a : ConduitM I Void A).to_consumer =
      (ConduitM.Pure a : ConduitM I O A) := rfl

@[simp] theorem to_consumer_await (k : Option I → ConduitM I Void A) :
    (ConduitM.Await k).to_consumer =
      (ConduitM.Await fun x => (k x).to_consumer : ConduitM I O A) := rfl

end ConduitM

@[simp] theorem sourceList_nil {O : Type} :
    sourceList ([] : List O) = .Pure () := rfl

@[simp] theorem sourceList_cons {O : Type} (o : O) (os : List O) :
    sourceList (o :: os) = .Yield o fun _ => sourceList os := rfl

@[simp] theorem collectSink_zero {O : Type} :
    collectSink (O := O) 0 = .Pure [] := rfl

@[simp] theorem collectSink_succ {O : Type} (n : Nat) :
    collectSink (O := O) (n + 1) =
      .Await fun x =>
        match x with
        | none => .Pure []
        | some o => (collectSink n).map (o :: ·) := rfl

@[simp] theorem idConduit_succ {O : Type} (n : Nat) :
    idConduit (O := O) (n + 1) =
      .Await fun x =>
        match x with
        | none => .Pure ()
        | some o => .Yield o fun _ => idConduit n := rfl

namespace ConduitM

variable {I O A B C R J : Type}

@[simp] theorem map_pure (b : A) (f : A → B) :
    (ConduitM.Pure b : ConduitM I O A).map f = .Pure (f b) := rfl

@[simp] theorem map_await (k : Option I → ConduitM I O A) (f : A → B) :
    (ConduitM.Await k).map f = (.Await fun x => (k x).map f : ConduitM I O B) := rfl

@[simp] theorem map_yield (o : O) (k : Unit → ConduitM I O A) (f : A → B) :
    (ConduitM.Yield o k).map f = (.Yield o fun u => (k u).map f : ConduitM I O B) := rfl

theorem connect_map {O B C : Type} (sink : ConduitM O Void B) (f : B → C) :
    ∀ src : ConduitM Unit O Unit, src.connect (sink.map f) = f (src.connect sink) := by
  induction sink with
  | Pure b => intro src; rfl
  | Yield o k ih => exact o.elim
  | Await ks ih =>
    intro src
    induction src with
    | Pure x =>
      simp only [map_await, connect_pure_await]
      exact ih none (.Pure x)
    | Await kr ihs =>
      simp only [map_await, connect_await_await]
      simpa only [map_await] using ihs (some ())
    | Yield o kr ihs =>
      simp only [map_await, connect_yield_await]
      exact ih (some o) (kr ())

theorem to_producer_connect {O B : Type} (S : ConduitM Unit O Unit) :
    ∀ K : ConduitM O Void B, (S.to_producer (I := Unit)).connect K = S.connect K := by
  induction S with
  | Pure x => intro K; rfl
  | Await k ih =>
    intro K
    rw [to_producer_await]
    cases K with
    | Pure b => rfl
    | Yield o k2 => exact o.elim
    | Await ks =>
      rw [connect_await_await]
      exact ih (some ()) (.Await ks)
  | Yield o k ih =>
    intro K
    cases K with
    | Pure b => rfl
    | Yield o2 k2 => exact o2.elim
    | Await ks =>
      simp only [to_producer_yield, connect_yield_await]
      exact ih () (ks (some o))

theorem fuse_to_producer_connect {I O B : Type} (S : ConduitM Unit O Unit) :
    ∀ (U : ConduitM Unit I Unit) (K : ConduitM O Void B),
      (U.fuse (S.to_producer (I := I))).connect K = S.connect K := by
  induction S with
  | Pure x => intro U K; rfl
  | Await k ih =>
    intro U K
    rw [to_producer_await]
    cases K with
    | Pure b => rfl
    | Yield o2 k2 => exact o2.elim
    | Await ks =>
      rw [connect_await_await]
      exact ih (some ()) U (.Await ks)
  | Yield o k ih =>
    intro U K
    cases K with
    | Pure b => rfl
    | Yield o2 k2 => exact o2.elim
    | Await ks =>
      simp only [to_producer_yield, fuse_yield_down, connect_yield_await]
      exact ih () U (ks (some o))

theorem to_consumer_void_id {I A : Type} (K : ConduitM I Void A) :
    K.to_consumer (O := Void) = K := by
  induction K with
  | Pure a => rfl
  | Await k ih =>
    simp only [to_consumer_await]
    exact congrArg ConduitM.Await (funext fun x => ih x)
  | Yield o k ih => exact o.elim

theorem fuse_to_consumer {J I O A : Type} (K : ConduitM I Void A) :
    ∀ S : ConduitM J I Unit,
      S.fuse (K.to_consumer (O := O)) = (S.fuse K).to_consumer := by
  induction K with
  | Pure a => intro S; rfl
  | Yield o k ih => exact o.elim
  | Await kd ihK =>
    intro S
    induction S with
    | Pure x =>
      simp only [to_consumer_await, fuse_pure_await]
      exact ihK none (.Pure ())
    | Yield b kl ihS =>
      simp only [to_consumer_await, fuse_yield_await]
      exact ihK (some b) (kl ())
    | Await kl ihS =>
      simp only [to_consumer_await, fuse_await_await] at ihS ⊢
      exact congrArg ConduitM.Await (funext fun a => ihS a)

end ConduitM

theorem fuse_pure_idConduit {O : Type} (n : Nat) :
    (ConduitM.Pure () : ConduitM Unit O Unit).fuse (idConduit n) = .Pure () := by
  cases n with
  | zero => rfl
  | succ m => rfl

theorem CQueue.pushAll_eq {α : Type} (fs : List α) (q : CQueue α) :
    CQueue.pushAll q fs = ⟨q.front, fs.reverse ++ q.back⟩ := by
  induction fs generalizing q with
  | nil => rfl
  | cons f fs ih =>
    simp only [pushAll, List.foldl_cons] at *
    rw [ih]
    simp [push, List.append_assoc]

theorem CQueue.drainGo_front {α : Type} (fs : List (α → α)) (x : α) :
    CQueue.drainGo fs [] x = (fs.foldl (fun a f => f a) x, fs.length) := by
  induction fs generalizing x with
  | nil => simp [CQueue.drainGo]
  | cons f fs ih => simp [CQueue.drainGo, ih]

theorem CQueue.drainGo_empty_front {α : Type} (back : List (α → α)) (x : α) :
    CQueue.drainGo [] back x =
      (back.reverse.foldl (fun a f => f a) x, 2 * back.length) := by
  cases back with
  | nil => simp [CQueue.drainGo]
  | cons b bs =>
    simp [CQueue.drainGo, CQueue.drainGo_front]
    omega


/-!
The claims.
-/

/-- Claim C1: for every result value `a` and every function `f` from results
to pipelines, `finished(a).and_then(f)` equals `f(a)` — `and_then` on a
`Pure` pipeline invokes the continuation immediately on the stored result,
with no suspension. -/
theorem c1_finished_and_then {I O A B : Type} (a : A) (f : A → ConduitM I O B) :
    (ConduitM.finished a : ConduitM I O A).and_then f = f a := rfl

/-- Claim C2: connecting `produce(42)` to `consume().map(|x| 1 + x.unwrap_or(0))`
returns `43`; and for every finite source yielding a list of values connected
to a sink that awaits and collects them (with enough await capacity), `connect`
delivers exactly those values, in order, with no drops and no duplicates. -/
theorem c2_connect_order_preservation :
    ((produce 42).connect (consume.map fun x => 1 + x.getD 0) = 43) ∧
    ∀ (O : Type) (xs : List O) (n : Nat), xs.length ≤ n →
      (sourceList xs).connect (collectSink n) = xs := by
  refine ⟨rfl, ?_⟩
  intro O xs
  induction xs with
  | nil =>
    intro n _
    cases n with
    | zero => rfl
    | succ m => rfl
  | cons x xs ih =>
    intro n hn
    cases n with
    | zero => simp at hn
    | succ m =>
      simp only [sourceList_cons, collectSink_succ, ConduitM.connect_yield_await]
      rw [ConduitM.connect_map, ih m (by simpa using hn)]

/-- Witness for C2 at the concrete source `[1, 2, 3]`. -/
theorem c2_connect_order_preservation_witness :
    [1, 2, 3].length ≤ 3 ∧ (sourceList [1, 2, 3]).connect (collectSink 3) = [1, 2, 3] :=
  ⟨by decide, c2_connect_order_preservation.2 Nat [1, 2, 3] 3 (by decide)⟩

/-- Claim C3: a source yielding `0` with an arbitrary remainder (in particular
the truncations of the infinite source `0, 1, 2, ...`), fused or connected
with a sink that consumes exactly one element and returns it, terminates and
returns `0` — the drive stops once the sink is `Pure`, independent of the
upstream remainder. -/
theorem c3_short_circuit :
    (∀ k : Unit → ConduitM Unit Nat Unit, (ConduitM.Yield 0 k).connect oneSink = 0) ∧
    (∀ k : Unit → ConduitM Unit Nat Unit, (ConduitM.Yield 0 k).fuse oneSink = .Pure 0) ∧
    (∀ d : Nat, (natsTrunc (d + 1) 0).connect oneSink = 0) :=
  ⟨fun _ => rfl, fun _ => rfl, fun _ => rfl⟩

/-- Claim C4: for every finite source and every sink, fusing the source with
the pass-through identity conduit (unrolled at least as far as the source is
long) and connecting equals connecting directly — fusing with a pass-through
stage is observationally a no-op. -/
theorem c4_fuse_identity :
    ∀ (O B : Type) (xs : List O) (K : ConduitM O Void B) (n : Nat),
      xs.length ≤ n →
      ((sourceList xs).fuse (idConduit n)).connect K = (sourceList xs).connect K := by
  intro O B xs
  induction xs with
  | nil =>
    intro K n _
    rw [sourceList_nil, fuse_pure_idConduit]
  | cons x xs ih =>
    intro K n hn
    cases n with
    | zero => simp at hn
    | succ m =>
      cases K with
      | Pure b => rfl
      | Yield o k => exact o.elim
      | Await ks =>
        simp only [sourceList_cons, idConduit_succ, ConduitM.fuse_yield_await,
          ConduitM.fuse_yield_down, ConduitM.connect_yield_await]
        exact ih (ks (some x)) m (by simpa using hn)

/-- Witness for C4 at the concrete source `[1, 2]` and a collecting sink. -/
theorem c4_fuse_identity_witness :
    ([1, 2].length ≤ 2) ∧
      ((sourceList [1, 2]).fuse (idConduit 2)).connect (collectSink 5) =
        (sourceList [1, 2]).connect (collectSink 5) :=
  ⟨by decide, c4_fuse_identity Nat (List Nat) [1, 2] (collectSink 5) 2 (by decide)⟩

/-- Claim C5: `fuse` inspects the downstream pipeline first — for every
upstream `up`, a `Pure(r)` downstream makes the fusion `Pure(r)` (upstream
discarded, never demanded), and a `Yield(c, k)` downstream makes the fusion
`Yield(c, _)` with upstream untouched inside the stored continuation until
the downstream next awaits. -/
theorem c5_fuse_downstream_first {I O C R : Type} :
    (∀ (up : ConduitM I O Unit) (r : R), up.fuse (.Pure r) = (.Pure r : ConduitM I C R)) ∧
    (∀ (up : ConduitM I O Unit) (c : C) (k : Unit → ConduitM O C R),
      ∃ k', up.fuse (.Yield c k) = .Yield c k' ∧ ∀ u, k' u = up.fuse (k u)) :=
  ⟨fun _ _ => rfl, fun up _ k => ⟨fun u => up.fuse (k u), rfl, fun _ => rfl⟩⟩

/-- Claim C6: `consume()` is `Await` of an identity continuation — resuming it
with `Some(i)` produces `Pure(Some(i))` and resuming it with `None` produces
`Pure(None)`, so the caller always observes a finished pipeline carrying the
`Option` it was resumed with. -/
theorem c6_consume_identity {I O : Type} :
    ∃ k : Option I → ConduitM I O (Option I),
      consume = ConduitM.Await k ∧
      (∀ i : I, k (some i) = .Pure (some i)) ∧ k none = .Pure none :=
  ⟨fun x => .Pure x, rfl, fun _ => rfl, rfl⟩

/-- Claim C7: every well-typed sink (output type `Void`, uninhabited) is
`Pure` or `Await`, never `Yield` — the `unreachable!()` branch of `connect`
cannot be reached because a `Yield` carrying a `Void` output cannot be
constructed. -/
theorem c7_sink_never_yields {I A : Type} :
    ∀ s : ConduitM I Void A, (∃ a, s = .Pure a) ∨ ∃ k, s = .Await k := by
  intro s
  cases s with
  | Pure a => exact Or.inl ⟨a, rfl⟩
  | Await k => exact Or.inr ⟨k, rfl⟩
  | Yield o k => exact o.elim

/-- Claim C8: the generalizing casts preserve behaviour — `to_producer`
connects to the same result as the original source, also under an arbitrary
fused upstream; `to_consumer` at the original output type is the identity,
and fusing an upstream with a generalized sink equals generalizing the fused
pipeline. -/
theorem c8_casts_behavior_preserving :
    (∀ (O B : Type) (S : ConduitM Unit O Unit) (K : ConduitM O Void B),
      (S.to_producer (I := Unit)).connect K = S.connect K) ∧
    (∀ (I O B : Type) (S : ConduitM Unit O Unit) (U : ConduitM Unit I Unit)
      (K : ConduitM O Void B),
      (U.fuse (S.to_producer (I := I))).connect K = S.connect K) ∧
    (∀ (I A : Type) (K : ConduitM I Void A), K.to_consumer (O := Void) = K) ∧
    (∀ (J I O A : Type) (S : ConduitM J I Unit) (K : ConduitM I Void A),
      S.fuse (K.to_consumer (O := O)) = (S.fuse K).to_consumer) :=
  ⟨fun _ _ S K => ConduitM.to_producer_connect S K,
   fun _ _ _ S U K => ConduitM.fuse_to_producer_connect S U K,
   fun _ _ K => ConduitM.to_consumer_void_id K,
   fun _ _ _ _ S K => ConduitM.fuse_to_consumer K S⟩

/-- Claim C9 (queue modelled from the spec, `kleisli` module not among the
sources): appending `n` continuations to the continuation queue and then
running them sequentially performs at most `3n + 1` primitive steps — linear,
not quadratic — and threads the value through the queued functions in FIFO
order. -/
theorem c9_queue_linear_cost :
    ∀ (α : Type) (fs : List (α → α)) (x : α),
      CQueue.pushAllCost fs + ((CQueue.pushAll CQueue.empty fs).drain x).2 ≤
        3 * fs.length + 1 ∧
      ((CQueue.pushAll CQueue.empty fs).drain x).1 = fs.foldl (fun a f => f a) x := by
  intro α fs x
  rw [CQueue.pushAll_eq]
  simp [CQueue.drain, CQueue.empty, CQueue.drainGo_empty_front, CQueue.pushAllCost]
  omega

/-- Claim C10: the `PartialEq` embedding returns `true` only between two
`Pure` values with equal payloads; any pair with an `Await` or `Yield` side
compares `false` — in particular suspended pipelines compare unequal to
themselves, so the relation is not reflexive on non-`Pure` values. -/
theorem c10_eq_only_finished {I O A : Type} [BEq A] :
    (∀ k : Option I → ConduitM I O A, ConduitM.beq (.Await k) (.Await k) = false) ∧
    (∀ (o : O) (k : Unit → ConduitM I O A),
      ConduitM.beq (.Yield o k) (.Yield o k) = false) ∧
    (∀ (a b : A), ConduitM.beq (.Pure a : ConduitM I O A) (.Pure b) = (a == b)) ∧
    (∀ x y : ConduitM I O A, ConduitM.beq x y = true →
      ∃ a b, x = .Pure a ∧ y = .Pure b ∧ (a == b) = true) := by
  refine ⟨fun _ => rfl, fun _ _ => rfl, fun _ _ => rfl, ?_⟩
  intro x y h
  cases x with
  | Pure a =>
    cases y with
    | Pure b => exact ⟨a, b, rfl, rfl, h⟩
    | Await k => exact absurd h (by simp [ConduitM.beq])
    | Yield o k => exact absurd h (by simp [ConduitM.beq])
  | Await k => exact absurd h (by simp [ConduitM.beq])
  | Yield o k => exact absurd h (by simp [ConduitM.beq])

/-- Witness for C10 at two concrete `Pure` pipelines. -/
theorem c10_eq_only_finished_witness :
    ∃ a b, (ConduitM.Pure 1 : ConduitM Nat Nat Nat) = .Pure a ∧
      (ConduitM.Pure 1 : ConduitM Nat Nat Nat) = .Pure b ∧ (a == b) = true :=
  c10_eq_only_finished.2.2.2 (.Pure 1) (.Pure 1) rfl
